import Mathlib

/-!
Verification of the CalendarManager Discord bot (src/index.ts, src/util.ts).

The TypeScript source is shallowly embedded: JS strings become Lean `String`
(operated on through their `List Char` data, matching JS UTF-16 semantics for
the ASCII data the bot manipulates), JS `Map` becomes an insertion-ordered
association list with JS `Map.set`/`Map.get`/`Map.has` semantics, and the
external collaborators (discord.js role/channel catalogs, the node-ical feed
fetch, the snapshot file) are passed in explicitly as values.
-/

namespace CalendarManager

/-! ## JS string primitives

Each primitive mirrors the semantics of the corresponding JS string method on
the ASCII strings the bot handles. -/

/-- JS `s.startsWith(p)`. -/
def jsStartsWith (s p : String) : Bool :=
  p.data.isPrefixOf s.data

/-- JS `s.slice(n)`: drop the first `n` UTF-16 units. -/
def jsDropStr (n : Nat) (s : String) : String :=
  String.mk (s.data.drop n)

/-- JS `s.slice(n, s.length - 1)`: drop the first `n` units and the last unit.
For `n ≤ s.length` this agrees with `slice` clamping (both give `""` when the
range is empty). -/
def jsSliceToLast (n : Nat) (s : String) : String :=
  String.mk ((s.data.drop n).dropLast)

/-- JS `/^\d+$/.test s`: nonempty and all ASCII digits. -/
def isAllDigits (s : String) : Bool :=
  !s.data.isEmpty && s.data.all (fun c => c.isDigit)

/-- JS `s.toLowerCase()` on ASCII content. -/
def jsToLower (s : String) : String :=
  String.mk (s.data.map Char.toLower)

/-- JS `s.split(' ')`: split on every single space, keeping empty pieces. -/
def jsSplitSpaceAux : List Char → List Char → List String
  | [], acc => [String.mk acc.reverse]
  | c :: cs, acc =>
    if c = ' ' then String.mk acc.reverse :: jsSplitSpaceAux cs []
    else jsSplitSpaceAux cs (c :: acc)

/-- JS `s.split(' ')`. -/
def jsSplitSpace (s : String) : List String :=
  jsSplitSpaceAux s.data []

/-- JS `arr.join(' ')`. -/
def joinSpace : List String → String
  | [] => ""
  | [s] => s
  | s :: rest => s ++ " " ++ joinSpace rest

/-! ## JS `Map` with string keys

An insertion-ordered association list. `Map.prototype.set` overwrites the
value in place when the key is already present and appends otherwise;
`Map.prototype.get` returns the value of the (unique) entry for the key. -/

/-- JS `m.get(k)` (as `Option`; JS returns `undefined` when absent). -/
def mapGet {α : Type} (m : List (String × α)) (k : String) : Option α :=
  match m with
  | [] => none
  | (k', v) :: rest => if k' = k then some v else mapGet rest k

/-- JS `m.has(k)`. -/
def mapHas {α : Type} (m : List (String × α)) (k : String) : Bool :=
  (mapGet m k).isSome

/-- JS `m.set(k, v)`: replace in place, or append when the key is new. -/
def mapSet {α : Type} (m : List (String × α)) (k : String) (v : α) :
    List (String × α) :=
  match m with
  | [] => [(k, v)]
  | (k', v') :: rest => if k' = k then (k, v) :: rest else (k', v') :: mapSet rest k v

/-- JS `new Map(entries)`: insert the entries left to right into an empty map. -/
def jsMapOfList {α : Type} (l : List (String × α)) : List (String × α) :=
  l.foldl (fun m e => mapSet m e.1 e.2) []

/-! ## Data model (src/util.ts interfaces) -/

/-- `interface Calendar { url, roleId, channelId }`. -/
structure Calendar where
  url : String
  roleId : String
  channelId : String
deriving DecidableEq, Repr

/-- `interface GuildData { id, prefix, calendars }`. The TS field `prefix` is
called `pfx` here because `prefix` is not usable as a Lean field name. -/
structure GuildData where
  id : String
  pfx : String
  calendars : List Calendar
deriving DecidableEq, Repr

/-- `interface SaveData { guilds: [string, GuildData][] }`. -/
structure SaveData where
  guilds : List (String × GuildData)
deriving DecidableEq, Repr

/-! ## The guild's live catalogs (discord.js collaborators)

A guild's roles live in `guild.roles`, a manager whose `cache` is a
`Collection<Snowflake, Role>` — a JS `Map` KEYED BY ROLE ID.  Hence both
`guild.roles.fetch(x)` (API lookup by id, resolving to the `Role` or `null`)
and `guild.roles.cache.get(x)` (local `Map.get`, also by id) are id lookups;
neither consults role names.  Channels are analogous:
`guild.channels.resolve(x)` with a string argument is a cache lookup by
channel id.  We model a catalog as the list of records the guild holds. -/

/-- A role in the guild's catalog: its snowflake id and display name. -/
structure RoleRec where
  id : String
  name : String
deriving DecidableEq, Repr

/-- A channel in the guild's catalog: id, display name, and kind
(discord.js v12 `channel.type`: "text", "voice", "category", ...). -/
structure ChannelRec where
  id : String
  name : String
  type : String
deriving DecidableEq, Repr

/-- `guild.roles.fetch(roleId)` (settled successfully): the role with that id,
if the guild has one. -/
def rolesFetch (roles : List RoleRec) (roleId : String) : Option RoleRec :=
  roles.find? (fun r => r.id = roleId)

/-- `guild.roles.cache.get(x)`: the cache is keyed by role id, so this is the
same id lookup as `rolesFetch` (it never matches a role by name). -/
def rolesCacheGet (roles : List RoleRec) (x : String) : Option RoleRec :=
  roles.find? (fun r => r.id = x)

/-- `guild.channels.resolve(channelId)` with a string argument: cache lookup
by channel id. -/
def channelsResolve (chans : List ChannelRec) (channelId : String) :
    Option ChannelRec :=
  chans.find? (fun c => c.id = channelId)

/-! ## Identifier resolvers (src/util.ts) -/

/-- `parseRole` (util.ts lines 34-57).  Mirrors the source:
mention branch slices `<@&...>` and validates via `guild.roles.fetch`; the
all-digits branch validates via `fetch` and falls through on failure; the
final statement is `guild.roles.cache.get(roleIdentifier)` — an id-keyed
lookup (see `rolesCacheGet`), notwithstanding the source comment that assumes
it matches a role name. -/
def parseRole (roleIdentifier : String) (roles : List RoleRec) : Option String :=
  if jsStartsWith roleIdentifier "<@&" then
    let roleId := jsSliceToLast 3 roleIdentifier
    match rolesFetch roles roleId with
    | some role => some role.id
    | none => none
  else if isAllDigits roleIdentifier then
    match rolesFetch roles roleIdentifier with
    | some role => some role.id
    | none =>
      match rolesCacheGet roles roleIdentifier with
      | some result => some result.id
      | none => none
  else
    match rolesCacheGet roles roleIdentifier with
    | some result => some result.id
    | none => none

/-- `parseTextChannel` (util.ts lines 68-89).  A `<#...>` identifier is
sliced to its inner id; otherwise the identifier itself is taken as the id;
the resolved channel must have `type === 'text'`. -/
def parseTextChannel (channelIdentifier : String) (chans : List ChannelRec) :
    Option String :=
  let channelId :=
    if jsStartsWith channelIdentifier "<#" then jsSliceToLast 2 channelIdentifier
    else channelIdentifier
  match channelsResolve chans channelId with
  | none => none
  | some channel => if channel.type = "text" then some channel.id else none

/-- `saveData` (util.ts lines 95-104): the serialized snapshot is
`{ guilds: Array.from(guilds.entries()) }`; the `JSON.stringify`/`JSON.parse`
pair on this plain data is the identity, so the snapshot is modelled by its
parsed value. -/
def saveData (guilds : List (String × GuildData)) : SaveData :=
  { guilds := guilds }

/-! ## Bot state (index.ts globals) -/

/-- The two global maps of index.ts: `guilds : Map<string, GuildData>` and the
derived `guildIdToPrefix : Map<string, string>` (`pfxMap` here). -/
structure BotState where
  guilds : List (String × GuildData)
  pfxMap : List (String × String)
deriving DecidableEq, Repr

/-- The guild context a message carries: `msg.guild`, with the live role and
channel catalogs the resolvers consult. -/
structure GuildCtx where
  id : String
  roles : List RoleRec
  channels : List ChannelRec
deriving DecidableEq, Repr

/-- `defaultGuildData(id)` (index.ts line 31), as a function of the
environment-configured `DEFAULT_PREFIX` (`defPfx`). -/
def defaultGuildData (defPfx : String) (id : String) : GuildData :=
  { id := id, pfx := defPfx, calendars := [] }

/-! ## Startup (index.ts `startUp`) -/

/-- Parsing lines 57-62 of index.ts: `guilds = new Map(savedData.guilds)`,
then `guilds.forEach(g => guildIdToPrefix.set(g.id, g.prefix))` into the
(initially empty) prefix map. -/
def loadStore (d : SaveData) : BotState :=
  let gs := jsMapOfList d.guilds
  { guilds := gs
    pfxMap := gs.foldl (fun m e => mapSet m e.2.id e.2.pfx) [] }

/-- What `fs.readFile(SAVE_FILE)` followed by `JSON.parse` can produce for
the startup code: a parsed `SaveData`, a file whose bytes are not valid
snapshot JSON (`JSON.parse` throws), an ENOENT error, or another read error. -/
inductive ReadResult where
  | found (d : SaveData)
  | corrupt
  | enoent
  | otherError
deriving DecidableEq, Repr

/-- Lines 41-63 of index.ts: the read/parse phase of `startUp`.  Returns the
parsed store and whether the empty snapshot was immediately written back
(`fs.writeFile(SAVE_FILE, EMPTY_SAVE_DATA)` on ENOENT), or `Except.error` when
startup aborts (a non-ENOENT read error is rethrown; a `JSON.parse` failure
propagates out of `startUp`). -/
def startUpLoad : ReadResult → Except Unit (BotState × Bool)
  | ReadResult.found d => Except.ok (loadStore d, false)
  | ReadResult.corrupt => Except.error ()
  | ReadResult.enoent => Except.ok (loadStore { guilds := [] }, true)
  | ReadResult.otherError => Except.error ()

/-- The body of the reconciliation loop, lines 68-73 of index.ts, for one
live guild id: if `guildIdToPrefix` lacks the id, insert the default prefix
and a default `GuildData` into both maps. -/
def ensureGuild (defPfx : String) (st : BotState) (id : String) : BotState :=
  if mapHas st.pfxMap id then st
  else
    { guilds := mapSet st.guilds id (defaultGuildData defPfx id)
      pfxMap := mapSet st.pfxMap id defPfx }

/-- Lines 67-74 of index.ts: run `ensureGuild` over every guild in the
client's live guild cache. -/
def reconcileGuilds (defPfx : String) (st : BotState) (liveIds : List String) :
    BotState :=
  liveIds.foldl (fun st id => ensureGuild defPfx st id) st

/-! ## Command handlers (index.ts `handleCommand`)

Each `case` of the `switch` is one definition.  A handler returns the reply
text sent with `msg.reply` (`none` when no reply is sent — only the
successful `addcalendar` path) and the updated global state.  The guild
context is `msg.guild` (`none` in a direct message).  Missing-prefix lookups
inside template literals render as the string "undefined", exactly as JS
stringifies `undefined`. -/

/-- `guildIdToPrefix.get(id)` interpolated into a template literal. -/
def pfxShown (st : BotState) (id : String) : String :=
  (mapGet st.pfxMap id).getD "undefined"

/-- `case 'prefix'` (index.ts lines 97-115). -/
def pfxCmd (tokens : List String) (guildOpt : Option GuildCtx) (st : BotState) :
    Option String × BotState :=
  match guildOpt with
  | some g =>
    if tokens.length = 1 then
      (some ("the current prefix is `" ++ pfxShown st g.id ++ "`"), st)
    else if tokens.length = 2 then
      (some ("the current prefix is `" ++ pfxShown st g.id ++ "`. Did you mean `"
        ++ pfxShown st g.id ++ "setprefix`?"), st)
    else
      (some ("Invalid usage of `" ++ pfxShown st g.id ++ "prefix`"), st)
  | none => (some "This command can only be used within a server.", st)

/-- `case 'setprefix'` (index.ts lines 116-141).  On success the retrieved
`GuildData` object's `prefix` field is mutated in place (so the `guilds` map
entry changes) and `guildIdToPrefix.set(msgGuildData.id, newPrefix)` updates
the derived map; `saveData` is then fired (external I/O, not part of the
in-memory state). -/
def setPfxCmd (tokens : List String) (guildOpt : Option GuildCtx) (st : BotState) :
    Option String × BotState :=
  match guildOpt with
  | some g =>
    if tokens.length = 2 then
      let newPfx := tokens.getD 1 ""
      match mapGet st.guilds g.id with
      | some msgGuildData =>
        (some ("done! New prefix is `" ++ newPfx ++ "`."),
          { guilds := mapSet st.guilds g.id { msgGuildData with pfx := newPfx }
            pfxMap := mapSet st.pfxMap msgGuildData.id newPfx })
      | none => (some "internal error.", st)
    else
      (some ("the usage of this command is `" ++ pfxShown st g.id
        ++ "setprefix <new prefix>`"), st)
  | none => (some "This command can only be used within a server.", st)

/-- `case 'calendars'` (index.ts lines 142-169). -/
def calendarsCmd (tokens : List String) (guildOpt : Option GuildCtx)
    (st : BotState) : Option String × BotState :=
  match guildOpt with
  | some g =>
    if tokens.length = 1 then
      match mapGet st.guilds g.id with
      | some gd =>
        if gd.calendars.length ≠ 0 then
          let replyString :=
            gd.calendars.foldl (fun acc c => acc ++ c.url ++ "\n") ""
          (some ("The calendars currently registered in this guild are:\n"
            ++ replyString), st)
        else
          (some "this server doesn\x27t have any calendars registered yet.", st)
      | none => (some "there was an internal error executing your command.", st)
    else
      (some ("the usage of this comand is `" ++ pfxShown st g.id ++ "calendars`"), st)
  | none => (some "This command can only be used within a server.", st)

/-- `case 'addcalendar'` (index.ts lines 170-224).  The feed fetch
`icalFromUrl(calUrl)` is an external collaborator modelled by
`ical : String → Bool` — whether the settled promise for a given URL was
fulfilled (its value is only stored, never inspected).  `parseRole` and the
fetch are awaited via `Promise.allSettled`, then the three failure checks run
in the fixed order role, feed, channel, each replying and returning; on full
success the registration is pushed onto the retrieved `GuildData`'s
`calendars` array (mutating the map entry in place) and no reply is sent. -/
def addcalendarCmd (tokens : List String) (guildOpt : Option GuildCtx)
    (ical : String → Bool) (st : BotState) : Option String × BotState :=
  match guildOpt with
  | some g =>
    if 4 ≤ tokens.length then
      match mapGet st.guilds g.id with
      | some guildData =>
        let calUrl := tokens.getD 1 ""
        let channelIdentifier := tokens.getD 2 ""
        let roleIdentifier := joinSpace (tokens.drop 3)
        match parseRole roleIdentifier g.roles with
        | none =>
          (some ("role `" ++ roleIdentifier ++ "` could not be parsed"), st)
        | some roleId =>
          if !ical calUrl then
            (some "the provided calendar could not be parsed as an ICS", st)
          else
            match parseTextChannel channelIdentifier g.channels with
            | none => (some "the provided text channel could not be found.", st)
            | some channelId =>
              let reg : Calendar :=
                { url := calUrl, roleId := roleId, channelId := channelId }
              let guildData' : GuildData :=
                { guildData with calendars := guildData.calendars ++ [reg] }
              (none, { st with guilds := mapSet st.guilds g.id guildData' })
      | none => (some "there was an internal error executing your command.", st)
    else
      (some ("the usage of this command is `" ++ pfxShown st g.id
        ++ "addcalendar <ical URL> <channel name or \\#mention> <roleId, mention, or name>`"), st)
  | none => (some "this command can only be used within a server.", st)

/-- `handleCommand` (index.ts lines 80-230): dispatch on
`commandTokens[0].toLowerCase()`.  The router never passes an empty token
list (see `messageHandler`); on `[]` the TS code would throw reading
`undefined.toLowerCase()`, modelled as no reply and no state change. -/
def handleCommand (tokens : List String) (guildOpt : Option GuildCtx)
    (ical : String → Bool) (st : BotState) : Option String × BotState :=
  match tokens with
  | [] => (none, st)
  | t0 :: _ =>
    let cmd := jsToLower t0
    if cmd = "ping" then (some "pong!", st)
    else if cmd = "prefix" then pfxCmd tokens guildOpt st
    else if cmd = "setprefix" then setPfxCmd tokens guildOpt st
    else if cmd = "calendars" then calendarsCmd tokens guildOpt st
    else if cmd = "addcalendar" then addcalendarCmd tokens guildOpt ical st
    else (some "invalid command!", st)

/-! ## Message router (index.ts `setUpListeners`, message handler) -/

/-- The `'message'` listener, lines 233-248 of index.ts: decides whether the
message is dispatched to `handleCommand` and with which tokens.  `botId` is
`discordClient.user.id`, `authorId` is `msg.author.id`, `content` is
`msg.content`.  For a guild message the prefix is
`guildIdToPrefix.get(msg.guild.id)`; for a DM it is `''`.  Returns the token
list passed to `handleCommand`, or `none` when no dispatch happens. -/
def messageHandler (botId authorId content : String) (guildOpt : Option GuildCtx)
    (st : BotState) : Option (List String) :=
  let pfx : String :=
    match guildOpt with
    | none => ""
    | some g => (mapGet st.pfxMap g.id).getD "undefined"
  let startsWithPfx := jsStartsWith content pfx
  let startsWithMention :=
    jsStartsWith content ("<@" ++ botId ++ "> ")
      || jsStartsWith content ("<@!" ++ botId ++ "> ")
  if authorId != botId && (startsWithPfx || startsWithMention) then
    let tokens := jsSplitSpace content
    if startsWithPfx then
      some (jsDropStr pfx.data.length (tokens.headD "") :: tokens.tail)
    else
      some tokens.tail
  else none

/-- The `'guildCreate'` listener, lines 250-265 of index.ts: unconditionally
`guilds.set(guild.id, defaultGuildData(guild.id))` and
`guildIdToPrefix.set(guild.id, DEFAULT_PREFIX)`, then `saveData`. -/
def guildCreate (defPfx : String) (st : BotState) (gid : String) : BotState :=
  { guilds := mapSet st.guilds gid (defaultGuildData defPfx gid)
    pfxMap := mapSet st.pfxMap gid defPfx }

/-! ## Lemmas about the JS map embedding -/

theorem mapGet_set_self {α : Type} (m : List (String × α)) (k : String) (v : α) :
    mapGet (mapSet m k v) k = some v := by
  induction m with
  | nil => simp [mapSet, mapGet]
  | cons e rest ih =>
    obtain ⟨k', v'⟩ := e
    by_cases h : k' = k
    · subst h
      simp [mapSet, mapGet]
    · simp [mapSet, mapGet, h, ih]

theorem mapGet_set_ne {α : Type} (m : List (String × α)) (k k' : String) (v : α)
    (h : k' ≠ k) : mapGet (mapSet m k v) k' = mapGet m k' := by
  induction m with
  | nil =>
    simp [mapSet, mapGet, Ne.symm h]
  | cons e rest ih =>
    obtain ⟨k₀, v₀⟩ := e
    by_cases h0 : k₀ = k
    · subst h0
      simp [mapSet, mapGet, Ne.symm h]
    · simp only [mapSet, if_neg h0, mapGet, ih]

theorem mapGet_eq_none_iff {α : Type} (m : List (String × α)) (k : String) :
    mapGet m k = none ↔ k ∉ m.map Prod.fst := by
  induction m with
  | nil => simp [mapGet]
  | cons e rest ih =>
    obtain ⟨k', v⟩ := e
    by_cases h : k' = k
    · subst h
      simp [mapGet]
    · simp [mapGet, h, Ne.symm h, ih]

theorem mapHas_iff_mem_keys {α : Type} (m : List (String × α)) (k : String) :
    mapHas m k = true ↔ k ∈ m.map Prod.fst := by
  rw [mapHas, Option.isSome_iff_ne_none]
  rw [ne_eq, mapGet_eq_none_iff]
  exact not_not

theorem mapGet_mem {α : Type} (m : List (String × α)) (k : String) (v : α)
    (h : mapGet m k = some v) : (k, v) ∈ m := by
  induction m with
  | nil => simp [mapGet] at h
  | cons e rest ih =>
    obtain ⟨k', v'⟩ := e
    by_cases h0 : k' = k
    · subst h0
      simp [mapGet] at h
      simp [h]
    · simp only [mapGet, if_neg h0] at h
      exact List.mem_cons_of_mem _ (ih h)

theorem mapGet_of_mem {α : Type} (m : List (String × α)) (k : String) (v : α)
    (hnd : (m.map Prod.fst).Nodup) (h : (k, v) ∈ m) : mapGet m k = some v := by
  induction m with
  | nil => simp at h
  | cons e rest ih =>
    obtain ⟨k', v'⟩ := e
    simp only [List.map_cons, List.nodup_cons] at hnd
    rcases List.mem_cons.mp h with h1 | h1
    · rw [Prod.mk.injEq] at h1
      obtain ⟨hk, hv⟩ := h1
      subst hk
      subst hv
      simp [mapGet]
    · have hne : k' ≠ k := by
        intro he
        subst he
        exact hnd.1 (List.mem_map.mpr ⟨(k', v), h1, rfl⟩)
      simp [mapGet, hne, ih hnd.2 h1]

theorem mem_of_mem_mapSet {α : Type} (m : List (String × α)) (k : String) (v : α)
    (e : String × α) (h : e ∈ mapSet m k v) : e = (k, v) ∨ e ∈ m := by
  induction m with
  | nil => simp [mapSet] at h; simp [h]
  | cons e0 rest ih =>
    obtain ⟨k₀, v₀⟩ := e0
    by_cases h0 : k₀ = k
    · subst h0
      simp only [mapSet, if_pos rfl] at h
      rcases List.mem_cons.mp h with h1 | h1
      · exact Or.inl h1
      · exact Or.inr (List.mem_cons_of_mem _ h1)
    · simp only [mapSet, if_neg h0] at h
      rcases List.mem_cons.mp h with h1 | h1
      · exact Or.inr (h1 ▸ List.mem_cons_self _ _)
      · rcases ih h1 with h2 | h2
        · exact Or.inl h2
        · exact Or.inr (List.mem_cons_of_mem _ h2)

theorem keys_mapSet_mem {α : Type} (m : List (String × α)) (k : String) (v : α)
    (h : k ∈ m.map Prod.fst) :
    (mapSet m k v).map Prod.fst = m.map Prod.fst := by
  induction m with
  | nil => simp at h
  | cons e rest ih =>
    obtain ⟨k₀, v₀⟩ := e
    by_cases h0 : k₀ = k
    · subst h0
      simp [mapSet]
    · simp only [List.map_cons, List.mem_cons] at h
      rcases h with h1 | h1
      · exact absurd h1.symm h0
      · simp [mapSet, h0, ih h1]

theorem keys_mapSet_not_mem {α : Type} (m : List (String × α)) (k : String) (v : α)
    (h : k ∉ m.map Prod.fst) :
    (mapSet m k v).map Prod.fst = m.map Prod.fst ++ [k] := by
  induction m with
  | nil => simp [mapSet]
  | cons e rest ih =>
    obtain ⟨k₀, v₀⟩ := e
    simp only [List.map_cons, List.mem_cons] at h
    push_neg at h
    have hne : ¬ k₀ = k := Ne.symm h.1
    simp [mapSet, hne, ih h.2]

theorem nodup_keys_mapSet {α : Type} (m : List (String × α)) (k : String) (v : α)
    (h : (m.map Prod.fst).Nodup) : ((mapSet m k v).map Prod.fst).Nodup := by
  by_cases hk : k ∈ m.map Prod.fst
  · rw [keys_mapSet_mem m k v hk]
    exact h
  · rw [keys_mapSet_not_mem m k v hk]
    simp [List.nodup_append, h, hk]

theorem mapSet_eq_append {α : Type} (m : List (String × α)) (k : String) (v : α)
    (h : k ∉ m.map Prod.fst) : mapSet m k v = m ++ [(k, v)] := by
  induction m with
  | nil => simp [mapSet]
  | cons e rest ih =>
    obtain ⟨k₀, v₀⟩ := e
    simp only [List.map_cons, List.mem_cons] at h
    push_neg at h
    have hne : ¬ k₀ = k := Ne.symm h.1
    simp [mapSet, hne, ih h.2]

theorem foldl_mapSet_fresh {α : Type} (l : List (String × α)) :
    ∀ acc : List (String × α), (acc.map Prod.fst ++ l.map Prod.fst).Nodup →
      l.foldl (fun m e => mapSet m e.1 e.2) acc = acc ++ l := by
  induction l with
  | nil => intro acc _; simp
  | cons e t ih =>
    intro acc h
    obtain ⟨k, v⟩ := e
    simp only [List.map_cons] at h
    have hk : k ∉ acc.map Prod.fst := by
      rw [List.nodup_append] at h
      exact fun hm => h.2.2 hm (List.mem_cons_self _ _)
    have hstep : mapSet acc k v = acc ++ [(k, v)] := mapSet_eq_append acc k v hk
    simp only [List.foldl_cons, hstep]
    have h' : ((acc ++ [(k, v)]).map Prod.fst ++ t.map Prod.fst).Nodup := by
      simpa [List.append_assoc] using h
    rw [ih (acc ++ [(k, v)]) h']
    simp

theorem jsMapOfList_eq_self {α : Type} (l : List (String × α))
    (h : (l.map Prod.fst).Nodup) : jsMapOfList l = l := by
  have := foldl_mapSet_fresh l [] (by simpa using h)
  simpa [jsMapOfList] using this

theorem foldl_pfx_fresh (l : List (String × GuildData)) :
    ∀ acc : List (String × String),
      (∀ e ∈ l, e.2.id = e.1) →
      (acc.map Prod.fst ++ l.map Prod.fst).Nodup →
      l.foldl (fun m e => mapSet m e.2.id e.2.pfx) acc
        = acc ++ l.map (fun e => (e.1, e.2.pfx)) := by
  induction l with
  | nil => intro acc _ _; simp
  | cons e t ih =>
    intro acc hid h
    obtain ⟨k, gd⟩ := e
    have hgd : gd.id = k := hid (k, gd) (List.mem_cons_self _ _)
    simp only [List.map_cons] at h
    have hk : k ∉ acc.map Prod.fst := by
      rw [List.nodup_append] at h
      exact fun hm => h.2.2 hm (List.mem_cons_self _ _)
    have hstep : mapSet acc gd.id gd.pfx = acc ++ [(k, gd.pfx)] := by
      rw [hgd]
      exact mapSet_eq_append acc k gd.pfx hk
    simp only [List.foldl_cons, hstep]
    have h' : ((acc ++ [(k, gd.pfx)]).map Prod.fst ++ t.map Prod.fst).Nodup := by
      simpa [List.append_assoc] using h
    rw [ih (acc ++ [(k, gd.pfx)]) (fun e he => hid e (List.mem_cons_of_mem _ he)) h']
    simp

theorem mapGet_map_pfx (l : List (String × GuildData)) (k : String) :
    mapGet (l.map (fun e => (e.1, e.2.pfx))) k = (mapGet l k).map GuildData.pfx := by
  induction l with
  | nil => simp [mapGet]
  | cons e rest ih =>
    obtain ⟨k', gd⟩ := e
    by_cases h : k' = k
    · subst h
      simp [mapGet]
    · simp [mapGet, h, ih]

/-! ## Store well-formedness

The invariant the bot maintains on its two global maps: both maps have
unique keys (they are JS `Map`s), every stored `GuildData`'s `id` field
matches its key, and the derived prefix map is exactly in sync with the
primary map — every guild id present in either map is present in both with
the identical prefix (spec section 3, "GuildStore" invariant).  Stated over
the maps' entries so it is decidable on concrete states. -/
def storeWF (st : BotState) : Prop :=
  (st.guilds.map Prod.fst).Nodup ∧ (st.pfxMap.map Prod.fst).Nodup ∧
  (∀ e ∈ st.guilds, e.2.id = e.1) ∧
  (∀ e ∈ st.guilds, mapGet st.pfxMap e.1 = some e.2.pfx) ∧
  (∀ e ∈ st.pfxMap, (mapGet st.guilds e.1).map GuildData.pfx = some e.2)

instance (st : BotState) : Decidable (storeWF st) := by
  unfold storeWF
  infer_instance

/-- The per-key reading of the sync invariant. -/
theorem storeWF_pointwise (st : BotState) (h : storeWF st) (k : String) :
    mapGet st.pfxMap k = (mapGet st.guilds k).map GuildData.pfx := by
  obtain ⟨hg, hp, hid, hs1, hs2⟩ := h
  cases hG : mapGet st.guilds k with
  | some gd =>
    simpa using hs1 (k, gd) (mapGet_mem _ _ _ hG)
  | none =>
    cases hP : mapGet st.pfxMap k with
    | none => simp
    | some p =>
      have := hs2 (k, p) (mapGet_mem _ _ _ hP)
      rw [hG] at this
      simp at this

/-- Rebuild the entry-wise invariant from nodup keys, id consistency, and the
per-key sync property. -/
theorem storeWF_of_pointwise (st : BotState)
    (hg : (st.guilds.map Prod.fst).Nodup) (hp : (st.pfxMap.map Prod.fst).Nodup)
    (hid : ∀ e ∈ st.guilds, e.2.id = e.1)
    (hsync : ∀ k, mapGet st.pfxMap k = (mapGet st.guilds k).map GuildData.pfx) :
    storeWF st := by
  refine ⟨hg, hp, hid, ?_, ?_⟩
  · intro e he
    rw [hsync e.1, mapGet_of_mem st.guilds e.1 e.2 hg (by simpa using he)]
    rfl
  · intro e he
    rw [← hsync e.1]
    exact mapGet_of_mem st.pfxMap e.1 e.2 hp (by simpa using he)

/-! ## Preservation of the invariant by every operation -/

theorem storeWF_loadStore (d : SaveData)
    (hnd : (d.guilds.map Prod.fst).Nodup)
    (hid : ∀ e ∈ d.guilds, e.2.id = e.1) :
    storeWF (loadStore d) ∧ (loadStore d).guilds = d.guilds := by
  have hgs : jsMapOfList d.guilds = d.guilds := jsMapOfList_eq_self d.guilds hnd
  have hpfx : (loadStore d).pfxMap = d.guilds.map (fun e => (e.1, e.2.pfx)) := by
    show (jsMapOfList d.guilds).foldl _ [] = _
    rw [hgs]
    simpa using foldl_pfx_fresh d.guilds [] hid (by simpa using hnd)
  have hguilds : (loadStore d).guilds = d.guilds := hgs
  refine ⟨storeWF_of_pointwise _ ?_ ?_ ?_ ?_, hguilds⟩
  · rw [hguilds]; exact hnd
  · rw [hpfx]
    have : (d.guilds.map (fun e => (e.1, e.2.pfx))).map Prod.fst
        = d.guilds.map Prod.fst := by
      simp
    rw [this]; exact hnd
  · rw [hguilds]; exact hid
  · intro k
    rw [hpfx, hguilds, mapGet_map_pfx]

theorem storeWF_ensureGuild (defPfx : String) (st : BotState) (gid : String)
    (h : storeWF st) : storeWF (ensureGuild defPfx st gid) := by
  unfold ensureGuild
  by_cases hh : mapHas st.pfxMap gid
  · simpa [hh] using h
  · simp only [hh, if_false, Bool.false_eq_true]
    refine storeWF_of_pointwise _ ?_ ?_ ?_ ?_
    · exact nodup_keys_mapSet _ _ _ h.1
    · exact nodup_keys_mapSet _ _ _ h.2.1
    · intro e he
      rcases mem_of_mem_mapSet _ _ _ _ he with h1 | h1
      · rw [h1]
        rfl
      · exact h.2.2.1 e h1
    · intro k
      by_cases hk : k = gid
      · subst hk
        rw [mapGet_set_self, mapGet_set_self]
        rfl
      · rw [mapGet_set_ne _ _ _ _ hk, mapGet_set_ne _ _ _ _ hk]
        exact storeWF_pointwise st h k

theorem storeWF_reconcileGuilds (defPfx : String) (st : BotState)
    (liveIds : List String) (h : storeWF st) :
    storeWF (reconcileGuilds defPfx st liveIds) := by
  induction liveIds generalizing st with
  | nil => exact h
  | cons id t ih =>
    exact ih (ensureGuild defPfx st id) (storeWF_ensureGuild defPfx st id h)

theorem storeWF_guildCreate (defPfx : String) (st : BotState) (gid : String)
    (h : storeWF st) : storeWF (guildCreate defPfx st gid) := by
  unfold guildCreate
  refine storeWF_of_pointwise _ ?_ ?_ ?_ ?_
  · exact nodup_keys_mapSet _ _ _ h.1
  · exact nodup_keys_mapSet _ _ _ h.2.1
  · intro e he
    rcases mem_of_mem_mapSet _ _ _ _ he with h1 | h1
    · rw [h1]
      rfl
    · exact h.2.2.1 e h1
  · intro k
    by_cases hk : k = gid
    · subst hk
      rw [mapGet_set_self, mapGet_set_self]
      rfl
    · rw [mapGet_set_ne _ _ _ _ hk, mapGet_set_ne _ _ _ _ hk]
      exact storeWF_pointwise st h k

theorem pfxCmd_state_eq (tokens : List String) (guildOpt : Option GuildCtx)
    (st : BotState) : (pfxCmd tokens guildOpt st).2 = st := by
  unfold pfxCmd
  cases guildOpt with
  | none => rfl
  | some g =>
    by_cases h1 : tokens.length = 1
    · simp [h1]
    · by_cases h2 : tokens.length = 2 <;> simp [h1, h2]

theorem calendarsCmd_state_eq (tokens : List String) (guildOpt : Option GuildCtx)
    (st : BotState) : (calendarsCmd tokens guildOpt st).2 = st := by
  unfold calendarsCmd
  cases guildOpt with
  | none => rfl
  | some g =>
    by_cases h1 : tokens.length = 1
    · simp only [h1, if_true]
      cases hG : mapGet st.guilds g.id with
      | none => rfl
      | some gd =>
        by_cases h2 : gd.calendars.length = 0 <;> simp [h2]
    · simp [h1]

theorem storeWF_setPfxCmd (tokens : List String) (guildOpt : Option GuildCtx)
    (st : BotState) (h : storeWF st) :
    storeWF (setPfxCmd tokens guildOpt st).2 := by
  unfold setPfxCmd
  cases guildOpt with
  | none => exact h
  | some g =>
    by_cases h2 : tokens.length = 2
    · simp only [h2, if_true]
      cases hG : mapGet st.guilds g.id with
      | none => exact h
      | some gd =>
        have hgid : gd.id = g.id :=
          h.2.2.1 (g.id, gd) (mapGet_mem _ _ _ hG)
        simp only
        refine storeWF_of_pointwise _ ?_ ?_ ?_ ?_
        · exact nodup_keys_mapSet _ _ _ h.1
        · exact nodup_keys_mapSet _ _ _ h.2.1
        · intro e he
          rcases mem_of_mem_mapSet _ _ _ _ he with h1 | h1
          · rw [h1]
            exact hgid
          · exact h.2.2.1 e h1
        · intro k
          rw [hgid]
          by_cases hk : k = g.id
          · subst hk
            rw [mapGet_set_self, mapGet_set_self]
            rfl
          · rw [mapGet_set_ne _ _ _ _ hk, mapGet_set_ne _ _ _ _ hk]
            exact storeWF_pointwise st h k
    · simp [h2, h]

theorem storeWF_addcalendarCmd (tokens : List String) (guildOpt : Option GuildCtx)
    (ical : String → Bool) (st : BotState) (h : storeWF st) :
    storeWF (addcalendarCmd tokens guildOpt ical st).2 := by
  unfold addcalendarCmd
  cases guildOpt with
  | none => exact h
  | some g =>
    by_cases h4 : 4 ≤ tokens.length
    · simp only [h4, if_true]
      cases hG : mapGet st.guilds g.id with
      | none => exact h
      | some gd =>
        have hgid : gd.id = g.id :=
          h.2.2.1 (g.id, gd) (mapGet_mem _ _ _ hG)
        simp only
        cases parseRole (joinSpace (tokens.drop 3)) g.roles with
        | none => exact h
        | some roleId =>
          by_cases hi : ical (tokens.getD 1 "")
          · simp only [hi, Bool.not_true, Bool.false_eq_true, if_false]
            cases parseTextChannel (tokens.getD 2 "") g.channels with
            | none => exact h
            | some channelId =>
              refine storeWF_of_pointwise _ ?_ ?_ ?_ ?_
              · exact nodup_keys_mapSet _ _ _ h.1
              · exact h.2.1
              · intro e he
                rcases mem_of_mem_mapSet _ _ _ _ he with h1 | h1
                · rw [h1]
                  exact hgid
                · exact h.2.2.1 e h1
              · intro k
                by_cases hk : k = g.id
                · subst hk
                  rw [mapGet_set_self]
                  have := storeWF_pointwise st h g.id
                  rw [hG] at this
                  exact this
                · rw [mapGet_set_ne _ _ _ _ hk]
                  exact storeWF_pointwise st h k
          · simp only [hi, Bool.not_false, if_true]
            exact h
    · simp [h4, h]

theorem storeWF_handleCommand (tokens : List String) (guildOpt : Option GuildCtx)
    (ical : String → Bool) (st : BotState) (h : storeWF st) :
    storeWF (handleCommand tokens guildOpt ical st).2 := by
  unfold handleCommand
  cases tokens with
  | nil => exact h
  | cons t0 rest =>
    simp only
    by_cases c1 : jsToLower t0 = "ping"
    · simp [c1, h]
    · by_cases c2 : jsToLower t0 = "prefix"
      · simpa [c1, c2, pfxCmd_state_eq] using h
      · by_cases c3 : jsToLower t0 = "setprefix"
        · simpa [c1, c2, c3] using storeWF_setPfxCmd (t0 :: rest) guildOpt st h
        · by_cases c4 : jsToLower t0 = "calendars"
          · simpa [c1, c2, c3, c4, calendarsCmd_state_eq] using h
          · by_cases c5 : jsToLower t0 = "addcalendar"
            · simpa [c1, c2, c3, c4, c5] using
                storeWF_addcalendarCmd (t0 :: rest) guildOpt ical st h
            · simp [c1, c2, c3, c4, c5, h]

/-! ## Claim theorems -/

/-- Claim C5 — the code contradicts the claim (and its own documentation).
`parseRole`'s final step is `guild.roles.cache.get(roleIdentifier)`, an
id-keyed `Map` lookup, so an exact role display name such as "Mods" in a
catalog holding role id "123" named "Mods" resolves to `null`, although the
function's JSDoc ("Can be a role mention, numeric role id, or a role name")
and its inline comment ("Assumes role identifier is the name of a role") both
promise name resolution.  The mention and literal-id steps of the claim do
hold, as the remaining conjuncts evaluate. -/
theorem parseRole_name_step_bug :
    parseRole "Mods" [{ id := "123", name := "Mods" }] = none ∧
    parseRole "<@&123>" [{ id := "123", name := "Mods" }] = some "123" ∧
    parseRole "<@&999>" [{ id := "123", name := "Mods" }] = none ∧
    parseRole "123" [{ id := "123", name := "Mods" }] = some "123" ∧
    parseRole "Administrators" [{ id := "123", name := "Mods" }] = none := by
  decide

/-- Claim C6: `parseTextChannel` never resolves by channel name — with two
channels both named "general" (ids "1" and "2") the identifier "general"
returns `null` — and an identifier resolves to a channel id only when it is a
channel mention (starts with the mention syntax `<#`) or the literal channel
id of a catalog channel of "text" kind; a catalog whose channels are all of
some other kind resolves every identifier to `null`. -/
theorem parseTextChannel_spec :
    parseTextChannel "general"
      [{ id := "1", name := "general", type := "text" },
       { id := "2", name := "general", type := "text" }] = none ∧
    (∀ chans ident cid, parseTextChannel ident chans = some cid →
      (ident = cid ∨ jsStartsWith ident "<#" = true) ∧
      chans.any (fun ch => ch.id == cid && ch.type == "text") = true) ∧
    (∀ chans ident, chans.all (fun ch => ch.type != "text") = true →
      parseTextChannel ident chans = none) := by
  refine ⟨by decide, ?_, ?_⟩
  · intro chans ident cid h
    unfold parseTextChannel at h
    by_cases hm : jsStartsWith ident "<#" = true
    · simp only [hm, if_true] at h
      cases hr : channelsResolve chans (jsSliceToLast 2 ident) with
      | none => rw [hr] at h; simp at h
      | some ch =>
        rw [hr] at h
        by_cases ht : ch.type = "text"
        · simp only [ht, if_true] at h
          have hcid : ch.id = cid := by simpa using h
          refine ⟨Or.inr hm, ?_⟩
          rw [List.any_eq_true]
          exact ⟨ch, List.mem_of_find?_eq_some hr, by simp [hcid, ht]⟩
        · simp [ht] at h
    · simp only [hm, if_false, Bool.false_eq_true] at h
      cases hr : channelsResolve chans ident with
      | none => rw [hr] at h; simp at h
      | some ch =>
        rw [hr] at h
        by_cases ht : ch.type = "text"
        · simp only [ht, if_true] at h
          have hcid : ch.id = cid := by simpa using h
          have hid : ch.id = ident := by
            have := List.find?_some hr
            simpa using this
          refine ⟨Or.inl (by rw [← hcid, hid]), ?_⟩
          rw [List.any_eq_true]
          exact ⟨ch, List.mem_of_find?_eq_some hr, by simp [hcid, ht]⟩
        · simp [ht] at h
  · intro chans ident hall
    simp only [parseTextChannel]
    cases hr : channelsResolve chans (if jsStartsWith ident "<#" = true
        then jsSliceToLast 2 ident else ident) with
    | none => rfl
    | some ch =>
      have hmem : ch ∈ chans := List.mem_of_find?_eq_some hr
      have := List.all_eq_true.mp hall ch hmem
      have ht : ch.type ≠ "text" := by simpa using this
      simp [ht]

/-- Witness for C6: a concrete application of the universally quantified
parts — the mention `<#5>` resolves to the text channel "5", and an all-voice
catalog resolves nothing. -/
theorem parseTextChannel_spec_witness :
    ((("<#5>" : String) = "5" ∨ jsStartsWith "<#5>" "<#" = true) ∧
      ([{ id := "5", name := "x", type := "text" }] : List ChannelRec).any
        (fun ch => ch.id == "5" && ch.type == "text") = true) ∧
    parseTextChannel "5" [{ id := "5", name := "x", type := "voice" }] = none :=
  ⟨parseTextChannel_spec.2.1 [{ id := "5", name := "x", type := "text" }]
      "<#5>" "5" (by decide),
    parseTextChannel_spec.2.2 [{ id := "5", name := "x", type := "voice" }]
      "5" (by decide)⟩

/-- Claim C7: at startup a missing snapshot file (ENOENT) yields the empty
store and immediately persists the empty snapshot (the `Bool` component);
reading a well-formed snapshot succeeds without writing; a corrupt snapshot
(`JSON.parse` throws) or any other read failure aborts startup
(`Except.error`). -/
theorem startUp_missing_vs_fatal :
    startUpLoad ReadResult.enoent
      = Except.ok (({ guilds := [], pfxMap := [] } : BotState), true) ∧
    (∀ d, startUpLoad (ReadResult.found d) = Except.ok (loadStore d, false)) ∧
    startUpLoad ReadResult.corrupt = Except.error () ∧
    startUpLoad ReadResult.otherError = Except.error () :=
  ⟨rfl, fun _ => rfl, rfl, rfl⟩

/-- Helper: after a `Map.set`, the key occurs exactly once among the keys
(provided the keys were duplicate-free, as they are for a JS `Map`). -/
theorem count_keys_mapSet {α : Type} (m : List (String × α)) (k : String) (v : α)
    (h : (m.map Prod.fst).Nodup) :
    ((mapSet m k v).map Prod.fst).count k = 1 := by
  by_cases hk : k ∈ m.map Prod.fst
  · rw [keys_mapSet_mem m k v hk]
    exact List.count_eq_one_of_mem h hk
  · rw [keys_mapSet_not_mem m k v hk, List.count_append]
    rw [List.count_eq_zero.mpr hk]
    simp

/-- Claim C9 — counterexample.  The four guild-context commands do all reject
in a direct message without touching the store, but not with one identical
reply text: `addcalendar`'s message starts with a lowercase "this" (index.ts
line 220) while `prefix`, `setprefix` and `calendars` use "This" (lines 111,
137, 165). -/
theorem dm_reject_not_same_text_counterexample :
    (handleCommand ["addcalendar"] none (fun _ => true)
        { guilds := [], pfxMap := [] }).1 ≠
    (handleCommand ["prefix"] none (fun _ => true)
        { guilds := [], pfxMap := [] }).1 := by
  decide

/-- Claim C9 as amended: each of the four guild-context commands, invoked
outside a guild (direct message), performs no store mutation and rejects with
a fixed message; `prefix`, `setprefix` and `calendars` share the exact text
"This command can only be used within a server." while `addcalendar`'s fixed
text differs only in the capitalization of its first word. -/
theorem dm_guild_commands_reject (st : BotState) (rest : List String)
    (ical : String → Bool) :
    handleCommand ("prefix" :: rest) none ical st
      = (some "This command can only be used within a server.", st) ∧
    handleCommand ("setprefix" :: rest) none ical st
      = (some "This command can only be used within a server.", st) ∧
    handleCommand ("calendars" :: rest) none ical st
      = (some "This command can only be used within a server.", st) ∧
    handleCommand ("addcalendar" :: rest) none ical st
      = (some "this command can only be used within a server.", st) := by
  refine ⟨?_, ?_, ?_, ?_⟩
  · have e : jsToLower "prefix" = "prefix" := by decide
    simp [handleCommand, e, pfxCmd]
  · have e : jsToLower "setprefix" = "setprefix" := by decide
    simp [handleCommand, e, setPfxCmd]
  · have e : jsToLower "calendars" = "calendars" := by decide
    simp [handleCommand, e, calendarsCmd]
  · have e : jsToLower "addcalendar" = "addcalendar" := by decide
    simp [handleCommand, e, addcalendarCmd]

/-- Claim C3 — counterexample.  The `guildCreate` listener does not keep an
existing config: for a store whose guild "g1" has prefix "!" and one
registered calendar, the event handler replaces the config with a fresh
default one, so "an existing config for g is not replaced" fails on the
guild-join path (it performs no `has` check, unlike the startup
reconciliation loop). -/
theorem guildCreate_replaces_counterexample :
    mapGet (guildCreate "~"
        (⟨[("g1", ⟨"g1", "!", [⟨"u", "r", "c"⟩]⟩)], [("g1", "!")]⟩ : BotState)
        "g1").guilds "g1"
      ≠ some (⟨"g1", "!", [⟨"u", "r", "c"⟩]⟩ : GuildData) := by
  decide

/-- Claim C3 as amended: the startup reconciliation step (`ensureGuild`) is
idempotent and keeps an existing config untouched, and after either it or the
`guildCreate` handler runs the store holds exactly one config for the guild;
but the `guildCreate` handler installs a fresh default config unconditionally,
replacing any existing one. -/
theorem ensure_and_guildCreate_amended (defPfx : String) (st : BotState)
    (gid : String) (h : storeWF st) :
    (mapHas st.pfxMap gid = true → ensureGuild defPfx st gid = st) ∧
    ensureGuild defPfx (ensureGuild defPfx st gid) gid
      = ensureGuild defPfx st gid ∧
    ((ensureGuild defPfx st gid).guilds.map Prod.fst).count gid = 1 ∧
    ((guildCreate defPfx st gid).guilds.map Prod.fst).count gid = 1 ∧
    mapGet (guildCreate defPfx st gid).guilds gid
      = some (defaultGuildData defPfx gid) := by
  refine ⟨?_, ?_, ?_, ?_, ?_⟩
  · intro hh
    simp [ensureGuild, hh]
  · by_cases hh : mapHas st.pfxMap gid
    · simp [ensureGuild, hh]
    · have h1 : ensureGuild defPfx st gid
          = ⟨mapSet st.guilds gid (defaultGuildData defPfx gid),
             mapSet st.pfxMap gid defPfx⟩ := by
        simp [ensureGuild, hh]
      rw [h1]
      have h2 : mapHas (mapSet st.pfxMap gid defPfx) gid = true := by
        rw [mapHas, mapGet_set_self]
        rfl
      simp [ensureGuild, h2]
  · by_cases hh : mapHas st.pfxMap gid
    · simp only [ensureGuild, hh, if_true]
      have hsync := storeWF_pointwise st h gid
      have hmem : gid ∈ st.guilds.map Prod.fst := by
        by_contra hmem
        rw [← mapGet_eq_none_iff st.guilds gid] at hmem
        rw [hmem] at hsync
        rw [mapHas, hsync] at hh
        simp at hh
      exact List.count_eq_one_of_mem h.1 hmem
    · simp only [ensureGuild, hh, if_false, Bool.false_eq_true]
      exact count_keys_mapSet st.guilds gid _ h.1
  · exact count_keys_mapSet st.guilds gid _ h.1
  · exact mapGet_set_self st.guilds gid _

/-- Witness for the amended C3: on a concrete well-formed store already
holding guild "g", `ensureGuild` keeps the store and `guildCreate` installs
the default config. -/
theorem ensure_and_guildCreate_amended_witness :
    storeWF (⟨[("g", ⟨"g", "~", []⟩)], [("g", "~")]⟩ : BotState) ∧
    mapGet (guildCreate "~"
        (⟨[("g", ⟨"g", "~", []⟩)], [("g", "~")]⟩ : BotState) "g").guilds "g"
      = some (defaultGuildData "~" "g") :=
  ⟨by decide,
    (ensure_and_guildCreate_amended "~"
      (⟨[("g", ⟨"g", "~", []⟩)], [("g", "~")]⟩ : BotState) "g"
      (by decide)).2.2.2.2⟩

/-- Claim C2: serializing the store with `saveData` and then parsing the
snapshot exactly as startup does (`loadStore`) reproduces an equivalent
`GuildStore`, for every well-formed store including the empty one: the guild
map is reproduced verbatim and the rebuilt derived prefix index agrees with
the original at every key. -/
theorem saveData_load_roundtrip (st : BotState) (h : storeWF st) :
    (loadStore (saveData st.guilds)).guilds = st.guilds ∧
    ∀ k, mapGet (loadStore (saveData st.guilds)).pfxMap k = mapGet st.pfxMap k := by
  have hload := storeWF_loadStore (saveData st.guilds) h.1 h.2.2.1
  refine ⟨hload.2, ?_⟩
  intro k
  rw [storeWF_pointwise _ hload.1 k, hload.2]
  show Option.map GuildData.pfx (mapGet st.guilds k) = mapGet st.pfxMap k
  rw [← storeWF_pointwise st h k]

/-- Witness for C2 at a concrete two-guild store. -/
theorem saveData_load_roundtrip_witness :
    storeWF (⟨[("g", ⟨"g", "~", []⟩), ("h", ⟨"h", "!", [⟨"u", "r", "c"⟩]⟩)],
        [("g", "~"), ("h", "!")]⟩ : BotState) ∧
    (loadStore (saveData
        (⟨[("g", ⟨"g", "~", []⟩), ("h", ⟨"h", "!", [⟨"u", "r", "c"⟩]⟩)],
          [("g", "~"), ("h", "!")]⟩ : BotState).guilds)).guilds
      = (⟨[("g", ⟨"g", "~", []⟩), ("h", ⟨"h", "!", [⟨"u", "r", "c"⟩]⟩)],
          [("g", "~"), ("h", "!")]⟩ : BotState).guilds :=
  ⟨by decide,
    (saveData_load_roundtrip
      (⟨[("g", ⟨"g", "~", []⟩), ("h", ⟨"h", "!", [⟨"u", "r", "c"⟩]⟩)],
        [("g", "~"), ("h", "!")]⟩ : BotState) (by decide)).1⟩

/-- Claim C4: every operation touching the two maps keeps the derived prefix
index strictly in sync with the guild configurations (`storeWF` contains the
sync invariant: every guild id present in either map is present in both with
the identical prefix).  Covered operations: startup load of a well-formed
snapshot, the startup guild reconciliation, every command dispatched through
`handleCommand` (in particular `setprefix`), and the guild-join handler. -/
theorem prefix_index_sync (d : SaveData) (st : BotState) (defPfx : String)
    (liveIds : List String) (tokens : List String) (guildOpt : Option GuildCtx)
    (ical : String → Bool) (gid : String)
    (hd1 : (d.guilds.map Prod.fst).Nodup)
    (hd2 : ∀ e ∈ d.guilds, e.2.id = e.1)
    (hst : storeWF st) :
    storeWF (loadStore d) ∧
    storeWF (reconcileGuilds defPfx st liveIds) ∧
    storeWF (handleCommand tokens guildOpt ical st).2 ∧
    storeWF (guildCreate defPfx st gid) :=
  ⟨(storeWF_loadStore d hd1 hd2).1,
    storeWF_reconcileGuilds defPfx st liveIds hst,
    storeWF_handleCommand tokens guildOpt ical st hst,
    storeWF_guildCreate defPfx st gid hst⟩

/-- Witness for C4: a concrete snapshot and store, with a `setprefix` command
applied; the invariant holds afterwards. -/
theorem prefix_index_sync_witness :
    storeWF (⟨[("g", ⟨"g", "~", []⟩)], [("g", "~")]⟩ : BotState) ∧
    storeWF (handleCommand ["setprefix", "!"] (some ⟨"g", [], []⟩)
      (fun _ => true) (⟨[("g", ⟨"g", "~", []⟩)], [("g", "~")]⟩ : BotState)).2 ∧
    storeWF (guildCreate "~" (⟨[("g", ⟨"g", "~", []⟩)], [("g", "~")]⟩ : BotState)
      "h") :=
  ⟨by decide,
    (prefix_index_sync (⟨[("g", ⟨"g", "~", []⟩)]⟩ : SaveData)
      (⟨[("g", ⟨"g", "~", []⟩)], [("g", "~")]⟩ : BotState) "~" []
      ["setprefix", "!"] (some ⟨"g", [], []⟩) (fun _ => true) "h"
      (by decide) (by decide) (by decide)).2.2.1,
    (prefix_index_sync (⟨[("g", ⟨"g", "~", []⟩)]⟩ : SaveData)
      (⟨[("g", ⟨"g", "~", []⟩)], [("g", "~")]⟩ : BotState) "~" []
      ["setprefix", "!"] (some ⟨"g", [], []⟩) (fun _ => true) "h"
      (by decide) (by decide) (by decide)).2.2.2⟩

/-! ## Router helper lemmas -/

/-- The dispatch condition of the message listener, for a guild message whose
guild has a configured prefix. -/
theorem messageHandler_isSome_guild (botId authorId content p : String)
    (g : GuildCtx) (st : BotState) (hp : mapGet st.pfxMap g.id = some p) :
    (messageHandler botId authorId content (some g) st).isSome
      = (authorId != botId && (jsStartsWith content p
          || (jsStartsWith content ("<@" ++ botId ++ "> ")
          || jsStartsWith content ("<@!" ++ botId ++ "> ")))) := by
  unfold messageHandler
  simp only [hp, Option.getD_some]
  by_cases hc : (authorId != botId && (jsStartsWith content p
      || (jsStartsWith content ("<@" ++ botId ++ "> ")
      || jsStartsWith content ("<@!" ++ botId ++ "> ")))) = true
  · rw [if_pos hc, hc]
    split <;> rfl
  · rw [if_neg hc]
    rw [Bool.not_eq_true] at hc
    rw [hc]
    rfl

/-- The dispatch condition for a direct message: the prefix is `''`. -/
theorem messageHandler_isSome_dm (botId authorId content : String)
    (st : BotState) :
    (messageHandler botId authorId content none st).isSome
      = (authorId != botId && (jsStartsWith content ""
          || (jsStartsWith content ("<@" ++ botId ++ "> ")
          || jsStartsWith content ("<@!" ++ botId ++ "> ")))) := by
  unfold messageHandler
  by_cases hc : (authorId != botId && (jsStartsWith content ""
      || (jsStartsWith content ("<@" ++ botId ++ "> ")
      || jsStartsWith content ("<@!" ++ botId ++ "> ")))) = true
  · rw [if_pos hc, hc]
    split <;> rfl
  · rw [if_neg hc]
    rw [Bool.not_eq_true] at hc
    rw [hc]
    rfl

/-- A bare plain mention (no trailing space) does not start with the plain
mention-plus-space token the router checks for. -/
theorem bare_plain_not_plain_mention (botId : String) :
    jsStartsWith ("<@" ++ botId ++ ">") ("<@" ++ botId ++ "> ") = false := by
  rw [Bool.eq_false_iff]
  intro hcon
  rw [jsStartsWith, List.isPrefixOf_iff_prefix] at hcon
  have hl := hcon.length_le
  simp [String.data_append] at hl

/-- A bare plain mention does not start with the nickname mention token. -/
theorem bare_plain_not_nick_mention (botId : String) :
    jsStartsWith ("<@" ++ botId ++ ">") ("<@!" ++ botId ++ "> ") = false := by
  rw [Bool.eq_false_iff]
  intro hcon
  rw [jsStartsWith, List.isPrefixOf_iff_prefix] at hcon
  have hl := hcon.length_le
  simp [String.data_append] at hl

/-- A bare nickname mention does not start with the nickname mention token. -/
theorem bare_nick_not_nick_mention (botId : String) :
    jsStartsWith ("<@!" ++ botId ++ ">") ("<@!" ++ botId ++ "> ") = false := by
  rw [Bool.eq_false_iff]
  intro hcon
  rw [jsStartsWith, List.isPrefixOf_iff_prefix] at hcon
  have hl := hcon.length_le
  simp [String.data_append] at hl

/-- A bare nickname mention does not start with the plain mention token
(the two have equal length, so a prefix would force `' ' = '>'`). -/
theorem bare_nick_not_plain_mention (botId : String) :
    jsStartsWith ("<@!" ++ botId ++ ">") ("<@" ++ botId ++ "> ") = false := by
  rw [Bool.eq_false_iff]
  intro hcon
  rw [jsStartsWith, List.isPrefixOf_iff_prefix] at hcon
  have heq : ("<@" ++ botId ++ "> ").data = ("<@!" ++ botId ++ ">").data := by
    apply hcon.eq_of_length
    simp [String.data_append]
  simp only [String.data_append] at heq
  have heq2 : botId.data ++ ['>', ' '] = '!' :: (botId.data ++ ['>']) := by
    simpa using heq
  have hL : (botId.data ++ ['>', ' ']).getLast? = some ' ' := by
    have : botId.data ++ ['>', ' '] = (botId.data ++ ['>']) ++ [' '] := by simp
    rw [this, List.getLast?_concat]
  have hR : ('!' :: (botId.data ++ ['>'])).getLast? = some '>' := by
    have : '!' :: (botId.data ++ ['>']) = ('!' :: botId.data) ++ ['>'] := by simp
    rw [this, List.getLast?_concat]
  rw [heq2, hR] at hL
  simp at hL

/-- Claim C8: an inbound message is dispatched to `handleCommand` iff its
author is not the bot itself AND its content starts with the guild's
configured prefix (the empty string for a direct message) or with one of the
two accepted bot-mention forms; in particular a message authored by the bot's
own account is never dispatched, regardless of any prefix or mention match. -/
theorem message_dispatch_iff (botId authorId content : String) (st : BotState) :
    (∀ g p, mapGet st.pfxMap g.id = some p →
      ((messageHandler botId authorId content (some g) st).isSome = true ↔
        (authorId ≠ botId ∧ (jsStartsWith content p = true ∨
          jsStartsWith content ("<@" ++ botId ++ "> ") = true ∨
          jsStartsWith content ("<@!" ++ botId ++ "> ") = true)))) ∧
    ((messageHandler botId authorId content none st).isSome = true ↔
      (authorId ≠ botId ∧ (jsStartsWith content "" = true ∨
        jsStartsWith content ("<@" ++ botId ++ "> ") = true ∨
        jsStartsWith content ("<@!" ++ botId ++ "> ") = true))) ∧
    (∀ guildOpt, authorId = botId →
      messageHandler botId authorId content guildOpt st = none) := by
  refine ⟨?_, ?_, ?_⟩
  · intro g p hp
    rw [messageHandler_isSome_guild botId authorId content p g st hp]
    simp [bne_iff_ne]
  · rw [messageHandler_isSome_dm botId authorId content st]
    simp [bne_iff_ne]
  · intro guildOpt ha
    cases guildOpt <;> simp [messageHandler, ha]

/-- Witness for C8 at concrete values: a prefixed guild message from a
non-bot author satisfies both sides of the equivalence. -/
theorem message_dispatch_iff_witness :
    (messageHandler "1" "2" "~ping" (some ⟨"g", [], []⟩)
        (⟨[("g", ⟨"g", "~", []⟩)], [("g", "~")]⟩ : BotState)).isSome = true ↔
      (("2" : String) ≠ "1" ∧ (jsStartsWith "~ping" "~" = true ∨
        jsStartsWith "~ping" ("<@" ++ "1" ++ "> ") = true ∨
        jsStartsWith "~ping" ("<@!" ++ "1" ++ "> ") = true)) :=
  (message_dispatch_iff "1" "2" "~ping"
    (⟨[("g", ⟨"g", "~", []⟩)], [("g", "~")]⟩ : BotState)).1
    ⟨"g", [], []⟩ "~" (by decide)

/-- Claim C10: mention-based routing requires a space immediately after the
mention token.  A non-bot-authored guild message whose content is exactly
`<@botId>` or `<@!botId>` with nothing following, and which does not start
with the guild's configured prefix, is not dispatched. -/
theorem bare_mention_requires_space (botId authorId p : String) (g : GuildCtx)
    (st : BotState) (hp : mapGet st.pfxMap g.id = some p)
    (_ha : authorId ≠ botId)
    (h1 : jsStartsWith ("<@" ++ botId ++ ">") p = false)
    (h2 : jsStartsWith ("<@!" ++ botId ++ ">") p = false) :
    messageHandler botId authorId ("<@" ++ botId ++ ">") (some g) st = none ∧
    messageHandler botId authorId ("<@!" ++ botId ++ ">") (some g) st = none := by
  constructor
  · rw [← Option.not_isSome_iff_eq_none,
      messageHandler_isSome_guild botId authorId _ p g st hp, h1,
      bare_plain_not_plain_mention, bare_plain_not_nick_mention]
    simp
  · rw [← Option.not_isSome_iff_eq_none,
      messageHandler_isSome_guild botId authorId _ p g st hp, h2,
      bare_nick_not_plain_mention, bare_nick_not_nick_mention]
    simp

/-- Witness for C10 at concrete values. -/
theorem bare_mention_requires_space_witness :
    messageHandler "1" "2" ("<@" ++ "1" ++ ">") (some ⟨"g", [], []⟩)
      (⟨[("g", ⟨"g", "~", []⟩)], [("g", "~")]⟩ : BotState) = none ∧
    messageHandler "1" "2" ("<@!" ++ "1" ++ ">") (some ⟨"g", [], []⟩)
      (⟨[("g", ⟨"g", "~", []⟩)], [("g", "~")]⟩ : BotState) = none :=
  bare_mention_requires_space "1" "2" "~" ⟨"g", [], []⟩
    (⟨[("g", ⟨"g", "~", []⟩)], [("g", "~")]⟩ : BotState)
    (by decide) (by decide) (by decide) (by decide)

/-- Claim C1: for an `addcalendar` invocation in a guild (enough tokens,
guild present in the store), a `CalendarRegistration` is appended iff role
resolution, feed fetch/parse, and channel resolution all succeed; on any
failure the state — in particular the guild's calendar list — is unchanged
and the single reply names the first failed input in the fixed order role,
feed, channel. -/
theorem addcalendar_transactional (tokens : List String) (g : GuildCtx)
    (ical : String → Bool) (st : BotState) (gd : GuildData)
    (hlen : 4 ≤ tokens.length)
    (hcmd : jsToLower (tokens.headD "") = "addcalendar")
    (hgd : mapGet st.guilds g.id = some gd) :
    (parseRole (joinSpace (tokens.drop 3)) g.roles = none →
      handleCommand tokens (some g) ical st
        = (some ("role `" ++ joinSpace (tokens.drop 3)
            ++ "` could not be parsed"), st)) ∧
    (∀ rid, parseRole (joinSpace (tokens.drop 3)) g.roles = some rid →
      ical (tokens.getD 1 "") = false →
      handleCommand tokens (some g) ical st
        = (some "the provided calendar could not be parsed as an ICS", st)) ∧
    (∀ rid, parseRole (joinSpace (tokens.drop 3)) g.roles = some rid →
      ical (tokens.getD 1 "") = true →
      parseTextChannel (tokens.getD 2 "") g.channels = none →
      handleCommand tokens (some g) ical st
        = (some "the provided text channel could not be found.", st)) ∧
    (∀ rid cid, parseRole (joinSpace (tokens.drop 3)) g.roles = some rid →
      ical (tokens.getD 1 "") = true →
      parseTextChannel (tokens.getD 2 "") g.channels = some cid →
      handleCommand tokens (some g) ical st
        = (none, ⟨mapSet st.guilds g.id
            ⟨gd.id, gd.pfx, gd.calendars ++ [⟨tokens.getD 1 "", rid, cid⟩]⟩,
            st.pfxMap⟩)) := by
  obtain ⟨t0, rest, rfl⟩ : ∃ t0 rest, tokens = t0 :: rest := by
    cases tokens with
    | nil => simp at hlen
    | cons a l => exact ⟨a, l, rfl⟩
  rw [List.headD_cons] at hcmd
  have hred : handleCommand (t0 :: rest) (some g) ical st
      = addcalendarCmd (t0 :: rest) (some g) ical st := by
    simp [handleCommand, hcmd]
  have hlen' : 3 ≤ rest.length := by
    simpa using hlen
  refine ⟨?_, ?_, ?_, ?_⟩
  · intro hrole
    rw [hred]
    simp only [List.drop_succ_cons] at hrole
    simp [addcalendarCmd, hlen', hgd, hrole]
  · intro rid hrole hical
    rw [hred]
    simp only [List.drop_succ_cons] at hrole
    simp at hical
    simp [addcalendarCmd, hlen', hgd, hrole, hical]
  · intro rid hrole hical hchan
    rw [hred]
    simp only [List.drop_succ_cons] at hrole
    simp at hical hchan
    simp [addcalendarCmd, hlen', hgd, hrole, hical, hchan]
  · intro rid cid hrole hical hchan
    rw [hred]
    simp only [List.drop_succ_cons] at hrole
    simp at hical hchan
    simp [addcalendarCmd, hlen', hgd, hrole, hical, hchan]

/-- Witness for C1: a fully successful registration on concrete catalogs —
the calendar is appended and no failure reply is produced. -/
theorem addcalendar_transactional_witness :
    4 ≤ (["addcalendar", "u", "5", "7"] : List String).length ∧
    handleCommand ["addcalendar", "u", "5", "7"]
      (some ⟨"g", [⟨"7", "Mods"⟩], [⟨"5", "gen", "text"⟩]⟩) (fun _ => true)
      (⟨[("g", ⟨"g", "~", []⟩)], [("g", "~")]⟩ : BotState)
      = (none, ⟨[("g", ⟨"g", "~", [⟨"u", "7", "5"⟩]⟩)], [("g", "~")]⟩) :=
  ⟨by decide,
    (addcalendar_transactional ["addcalendar", "u", "5", "7"]
      ⟨"g", [⟨"7", "Mods"⟩], [⟨"5", "gen", "text"⟩]⟩ (fun _ => true)
      (⟨[("g", ⟨"g", "~", []⟩)], [("g", "~")]⟩ : BotState)
      ⟨"g", "~", []⟩ (by decide) (by decide) (by decide)).2.2.2 "7" "5"
      (by decide) rfl (by decide)⟩

end CalendarManager
